import Mathlib

/-!
Shallow embedding of the napari repository's chunk-loading subsystem,
viewer model and range calculations, with theorems checking the
natural-language specification against the code.

Sources embedded:
* `napari/components/experimental/chunk/_request.py` (`_flatten`,
  `LayerKey`, `ChunkKey`, `ChunkRequest`)
* `napari/_vispy/vispy_image_layer.py` (`downsample_texture`)
* `napari/components/viewer_model.py` (property setters,
  `_update_active_layer`, `_calc_layers_ranges`)
* `napari/components/_viewer/model.py` (`_calc_layers_ranges`)
* `gui/layers/_box_layer.py` (`Box._slice_boxes`)
-/

namespace Napari

/-! ## Chunk keys (`_request.py`) -/

/-- One entry of an indices tuple: either a Python `slice(start, stop, step)`
(each component possibly `None`) or a plain integer index. -/
inductive PyIndex where
  | pslice (start stop step : Option Int) : PyIndex
  | pint (v : Int) : PyIndex
deriving DecidableEq

/-- Embeds `_flatten` from `_request.py`: slices contribute their
`start`, `stop` and `step` in order, non-slice entries are kept unchanged. -/
def flattenIndices : List PyIndex → List (Option Int)
  | [] => []
  | PyIndex.pslice a b c :: rest => a :: b :: c :: flattenIndices rest
  | PyIndex.pint v :: rest => some v :: flattenIndices rest

/-- Embeds the `LayerKey` named tuple from `_request.py`. -/
structure LayerKey where
  layer_id : Int
  data_id : Int
  data_level : Int
  indices : List PyIndex
deriving DecidableEq

/-- The tuple hashed to form a chunk key, as returned by
`LayerKey._get_hash_values`. -/
abbrev HashValues := Int × Int × Int × List (Option Int)

/-- Embeds `LayerKey._get_hash_values`. -/
def LayerKey.getHashValues (k : LayerKey) : HashValues :=
  (k.layer_id, k.data_id, k.data_level, flattenIndices k.indices)

/-- Embeds the `ChunkKey` class: it stores the `LayerKey` and the hash of
the identity tuple.  The Python `hash` builtin is an external collaborator,
modelled as an arbitrary function `h` on the identity tuples. -/
structure ChunkKey where
  layer_key : LayerKey
  key : Int
deriving DecidableEq

/-- Embeds `ChunkKey.__init__`: builds the `LayerKey` and hashes the
identity tuple with the ambient hash function `h`. -/
def mkChunkKey (h : HashValues → Int) (layer_id data_id data_level : Int)
    (indices : List PyIndex) : ChunkKey :=
  let lk : LayerKey := ⟨layer_id, data_id, data_level, indices⟩
  ⟨lk, h lk.getHashValues⟩

/-- Embeds `ChunkKey.__eq__`: two keys compare equal when their stored
hash values are equal. -/
def chunkKeyEq (a b : ChunkKey) : Bool :=
  a.key == b.key

/-! ## Chunk requests (`_request.py`) -/

/-- Payload of one named chunk.  A chunk array is either already a numpy
`ndarray` or a lazy array-like (dask et al.) carrying the same data. -/
inductive ArrayLike where
  | ndarray (n : Nat) : ArrayLike
  | lazyArr (n : Nat) : ArrayLike
deriving DecidableEq

/-- Embeds `np.asarray`: an `ndarray` is returned as is, any other
array-like is materialised into an `ndarray` with the same contents. -/
def asarray : ArrayLike → ArrayLike
  | ArrayLike.ndarray n => ArrayLike.ndarray n
  | ArrayLike.lazyArr n => ArrayLike.ndarray n

/-- Embeds `ChunkRequest`: the key, the named chunk arrays, and the timers
dict.  Only the timer names matter to the spec, so `timers` records the
dict's key set (insertion ordered, duplicate-free by construction). -/
structure ChunkRequest where
  key : ChunkKey
  chunks : List (String × ArrayLike)
  timers : List String

/-- Insertion into the timers dict: `self.timers[name] = event` adds the
name when absent and otherwise leaves the key set unchanged. -/
def timersInsert (d : List String) (k : String) : List String :=
  if k ∈ d then d else d ++ [k]

/-- Embeds `ChunkRequest.load_chunks`: each chunk is replaced by
`np.asarray` of itself and timed under its own name, and the whole loop is
timed under the aggregate name `"ChunkRequest.load_chunks"` (the outer
timer is recorded last, when its `with` block exits). -/
def loadChunks (r : ChunkRequest) : ChunkRequest :=
  let innerTimers := (r.chunks.map Prod.fst).foldl timersInsert r.timers
  { r with
    chunks := r.chunks.map (fun p => (p.1, asarray p.2))
    timers := timersInsert innerTimers "ChunkRequest.load_chunks" }

/-- Embeds `ChunkRequest.transpose_chunks`: every chunk value is replaced
by its transpose.  The numpy `transpose(order)` method is an external
collaborator, modelled as an arbitrary function `tr` on arrays. -/
def transposeChunks (tr : ArrayLike → ArrayLike) (r : ChunkRequest) :
    ChunkRequest :=
  { r with chunks := r.chunks.map (fun p => (p.1, tr p.2)) }

/-- Embeds the `ChunkRequest.thumbnail_source` property:
`self.chunks['thumbnail_source']` guarded by `KeyError`, falling back to
`self.chunks.get('image')`. -/
def thumbnailSource (r : ChunkRequest) : Option ArrayLike :=
  match r.chunks.lookup "thumbnail_source" with
  | some c => some c
  | none => r.chunks.lookup "image"

/-! ## Texture downsampling (`vispy_image_layer.py`) -/

/-- Nested-list model of an n-dimensional numpy array's contents. -/
inductive Tensor where
  | scalar (v : Int) : Tensor
  | arr (elems : List Tensor) : Tensor

/-- Auxiliary for strided slicing: keep the element when the countdown hits
zero and reset the countdown to `s - 1`. -/
def everyNthAux {α : Type} (s : Nat) : Nat → List α → List α
  | _, [] => []
  | 0, x :: xs => x :: everyNthAux s (s - 1) xs
  | k + 1, _ :: xs => everyNthAux s k xs

/-- Embeds `xs[::s]`: every `s`-th element starting from the first. -/
def everyNth {α : Type} (s : Nat) (xs : List α) : List α :=
  everyNthAux s 0 xs

/-- Does the tensor have the given shape?  A scalar has shape `[]`; an
`arr` has shape `n :: sh` when it has `n` elements each of shape `sh`. -/
def hasShape : List Nat → Tensor → Bool
  | [], Tensor.scalar _ => true
  | [], Tensor.arr _ => false
  | _ :: _, Tensor.scalar _ => false
  | n :: sh, Tensor.arr es => es.length == n && es.all (hasShape sh)

/-- Embeds `data[tuple(slice(None, None, ds) for ds in steps)]`:
axis-aligned strided slicing, one stride per axis. -/
def strideSlice : List Nat → Tensor → Tensor
  | [], t => t
  | _ :: _, Tensor.scalar v => Tensor.scalar v
  | s :: rest, Tensor.arr es => Tensor.arr ((everyNth s es).map (strideSlice rest))

/-- Ceiling division on naturals; matches `np.ceil(np.divide(n, s))` for
the integer shapes involved (when `s > 0`). -/
def ceilDiv (n s : Nat) : Nat := (n + s - 1) / s

/-- A numpy array value: contents plus the shape metadata it carries. -/
structure NDArray where
  data : Tensor
  shape : List Nat

/-- Well-formedness of an `NDArray`: the contents have the stated shape. -/
def NDArray.wf (a : NDArray) : Bool := hasShape a.shape a.data

/-- Embeds the `tile2data` scale update in `downsample_texture`:
`scale = np.ones(ndim)` then `scale[d] = downsample[i]` for
`i, d in enumerate(displayed)`. -/
def updateScale (ndim : Nat) (displayed : List Nat) (ds : List Nat) : List Nat :=
  (displayed.zip ds).foldl (fun sc p => sc.set p.1 p.2) (List.replicate ndim 1)

/-- The two `ValueError`s `downsample_texture` can run into: its own raise
for oversized multiscale tiles, and numpy's raise when a stride of an
indexing slice is zero (which happens for a zero-sized dimension, since
then `np.ceil(np.divide(0, M)) == 0`). -/
inductive DsError where
  | multiscaleOversize : DsError
  | zeroSliceStep : DsError
deriving DecidableEq

/-- Outcome of `downsample_texture`: the returned array or the raised
error, in each case together with the layer's `tile2data` scale after the
call (the scale is mutated before the slicing is executed). -/
inductive DsResult where
  | ok (a : NDArray) (scale : List Nat) : DsResult
  | err (e : DsError) (scale : List Nat) : DsResult

/-- Embeds `VispyImageLayer.downsample_texture`.  `multiscale`, `ndim`,
`displayed` and `scale` are the fields of `self.layer` the method reads
and writes; `a` is `data` and `M` is `MAX_TEXTURE_SIZE`. -/
def downsampleTexture (multiscale : Bool) (ndim : Nat) (displayed : List Nat)
    (scale : List Nat) (a : NDArray) (M : Nat) : DsResult :=
  if a.shape.any (fun n => M < n) then
    if multiscale then
      DsResult.err DsError.multiscaleOversize scale
    else
      let ds := a.shape.map (fun n => ceilDiv n M)
      let scale' := updateScale ndim displayed ds
      if ds.any (fun s => s == 0) then
        DsResult.err DsError.zeroSliceStep scale'
      else
        DsResult.ok ⟨strideSlice ds a.data, List.zipWith ceilDiv a.shape ds⟩ scale'
  else
    DsResult.ok a scale

/-! ## Viewer model state and setters (`viewer_model.py`) -/

/-- The slice of a layer's state that `ViewerModel._update_active_layer`
reads: its selection flag and the status/help/cursor/interactive values it
publishes.  An `id` field stands for Python object identity so that
distinct layers with equal published values stay distinguishable. -/
structure VLayer where
  id : Int
  selected : Bool
  status : String
  help : String
  cursor : String
  interactive : Bool
deriving DecidableEq

/-- The `ViewerModel` attributes behind the guarded property setters. -/
structure ViewerState where
  status : String
  help : String
  title : String
  cursor : String
  interactive : Bool
  palette : List (String × String)
  active_layer : Option VLayer
deriving DecidableEq

/-- Events the `ViewerModel` setters emit, with the payloads the code
passes (`status`/`help`/`title` carry `text=...`, `palette` carries the
palette, `active_layer` carries `item=...`, the rest carry nothing). -/
inductive ViewerEvent where
  | status (text : String) : ViewerEvent
  | help (text : String) : ViewerEvent
  | title (text : String) : ViewerEvent
  | interactive : ViewerEvent
  | cursor : ViewerEvent
  | palette (p : List (String × String)) : ViewerEvent
  | active_layer (item : Option VLayer) : ViewerEvent
deriving DecidableEq

/-- Embeds the `status` property setter. -/
def setStatus (s : ViewerState) (v : String) : ViewerState × List ViewerEvent :=
  if v = s.status then (s, [])
  else ({ s with status := v }, [ViewerEvent.status v])

/-- Embeds the `help` property setter. -/
def setHelp (s : ViewerState) (v : String) : ViewerState × List ViewerEvent :=
  if v = s.help then (s, [])
  else ({ s with help := v }, [ViewerEvent.help v])

/-- Embeds the `title` property setter. -/
def setTitle (s : ViewerState) (v : String) : ViewerState × List ViewerEvent :=
  if v = s.title then (s, [])
  else ({ s with title := v }, [ViewerEvent.title v])

/-- Embeds the `cursor` property setter. -/
def setCursor (s : ViewerState) (v : String) : ViewerState × List ViewerEvent :=
  if v = s.cursor then (s, [])
  else ({ s with cursor := v }, [ViewerEvent.cursor])

/-- Embeds the `interactive` property setter. -/
def setInteractive (s : ViewerState) (v : Bool) : ViewerState × List ViewerEvent :=
  if v = s.interactive then (s, [])
  else ({ s with interactive := v }, [ViewerEvent.interactive])

/-- Embeds the `palette` property setter. -/
def setPalette (s : ViewerState) (v : List (String × String)) :
    ViewerState × List ViewerEvent :=
  if v = s.palette then (s, [])
  else ({ s with palette := v }, [ViewerEvent.palette v])

/-- Embeds the `active_layer` property setter. -/
def setActiveLayer (s : ViewerState) (v : Option VLayer) :
    ViewerState × List ViewerEvent :=
  if v = s.active_layer then (s, [])
  else ({ s with active_layer := v }, [ViewerEvent.active_layer v])

/-- The search loop of `_update_active_layer`: scan the layer list,
remember the first selected layer, and bail out with `None` as soon as a
second selected layer shows up. -/
def findActive : Option VLayer → List VLayer → Option VLayer
  | acc, [] => acc
  | none, l :: ls => if l.selected then findActive (some l) ls else findActive none ls
  | some a, l :: ls => if l.selected then none else findActive (some a) ls

/-- Embeds `ViewerModel._update_active_layer`: find the active layer and
push status/help/cursor/interactive/active_layer through the property
setters, collecting the emitted events. -/
def updateActiveLayer (layers : List VLayer) (s : ViewerState) :
    ViewerState × List ViewerEvent :=
  match findActive none layers with
  | none =>
    let r1 := setStatus s "Ready"
    let r2 := setHelp r1.1 ""
    let r3 := setCursor r2.1 "standard"
    let r4 := setInteractive r3.1 true
    let r5 := setActiveLayer r4.1 none
    (r5.1, r1.2 ++ r2.2 ++ r3.2 ++ r4.2 ++ r5.2)
  | some l =>
    let r1 := setStatus s l.status
    let r2 := setHelp r1.1 l.help
    let r3 := setCursor r2.1 l.cursor
    let r4 := setInteractive r3.1 l.interactive
    let r5 := setActiveLayer r4.1 (some l)
    (r5.1, r1.2 ++ r2.2 ++ r3.2 ++ r4.2 ++ r5.2)

/-! ## Axis-range calculation (`viewer_model.py` and `_viewer/model.py`) -/

/-- Extended rationals: the values `inf`, `-inf` and finite floats that
appear in the per-axis range triples. -/
inductive ERat where
  | ninf : ERat
  | fin (q : ℚ) : ERat
  | pinf : ERat
deriving DecidableEq

/-- Strict order on extended rationals. -/
def ERat.lt : ERat → ERat → Bool
  | ERat.ninf, ERat.ninf => false
  | ERat.ninf, _ => true
  | _, ERat.ninf => false
  | ERat.pinf, _ => false
  | ERat.fin _, ERat.pinf => true
  | ERat.fin a, ERat.fin b => decide (a < b)

/-- Python's two-argument `min`: the second argument when it is strictly
smaller, otherwise the first. -/
def emin (a b : ERat) : ERat := if ERat.lt b a then b else a

/-- Python's two-argument `max`: the second argument when it is strictly
larger, otherwise the first. -/
def emax (a b : ERat) : ERat := if ERat.lt a b then b else a

/-- One per-axis `(min, max, step)` triple. -/
abbrev RangeTriple := ERat × ERat × ERat

/-- The fill value `(inf, -inf, inf)`. -/
def fillTriple : RangeTriple := (ERat.pinf, ERat.ninf, ERat.pinf)

/-- Embeds `itertools.zip_longest` with a common fill value. -/
def zipLongest {α : Type} (fill : α) : List α → List α → List (α × α)
  | [], [] => []
  | [], y :: ys => (fill, y) :: zipLongest fill [] ys
  | x :: xs, [] => (x, fill) :: zipLongest fill xs []
  | x :: xs, y :: ys => (x, y) :: zipLongest fill xs ys

/-- The comprehension body shared by both `_calc_layers_ranges`:
`(min(a, b), max(c, d), min(e, f))`. -/
def combineTriple (p : RangeTriple × RangeTriple) : RangeTriple :=
  (emin p.1.1 p.2.1, emax p.1.2.1 p.2.2.1, emin p.1.2.2 p.2.2.2)

/-- Embeds `ViewerModel._calc_layers_num_dims`: the running maximum of
`layer.ndim` (the length of a layer's range tuple) over the layers. -/
def viewerModelCalcLayersNumDims (layerRanges : List (List RangeTriple)) : Nat :=
  layerRanges.foldl (fun m lr => if lr.length > m then lr.length else m) 0

/-- Embeds `ViewerModel._calc_layers_ranges` from
`napari/components/viewer_model.py`, with each layer represented by its
`layer.range` list of triples. -/
def viewerModelCalcLayersRanges (layerRanges : List (List RangeTriple)) :
    List RangeTriple :=
  let ndims := viewerModelCalcLayersNumDims layerRanges
  let init := List.replicate ndims fillTriple
  (layerRanges.foldl
    (fun ranges lr => (zipLongest fillTriple ranges lr.reverse).map combineTriple)
    init).reverse

/-- Embeds `Viewer._calc_layers_num_dims` from
`napari/components/_viewer/model.py`. -/
def viewerCalcLayersNumDims (layerRanges : List (List RangeTriple)) : Nat :=
  layerRanges.foldl (fun m lr => if lr.length > m then lr.length else m) 0

/-- Embeds `Viewer._calc_layers_ranges` from
`napari/components/_viewer/model.py`. -/
def viewerCalcLayersRanges (layerRanges : List (List RangeTriple)) :
    List RangeTriple :=
  let ndims := viewerCalcLayersNumDims layerRanges
  let init := List.replicate ndims fillTriple
  (layerRanges.foldl
    (fun ranges lr => (zipLongest fillTriple ranges lr.reverse).map combineTriple)
    init).reverse

/-- Modelled from the spec claim's words: ranges are formed right-aligned
and element-wise as (minimum of mins, maximum of maxes, minimum of steps)
across layers, with `(inf, -inf, inf)` for axes no layer covers.
Right-aligned means axis `i` counted from the end of each layer's range
list; the output has one entry per axis up to the largest layer rank. -/
def calcLayersRangesSpec (layerRanges : List (List RangeTriple)) :
    List RangeTriple :=
  let n := layerRanges.foldl (fun m lr => max m lr.length) 0
  ((List.range n).map (fun i =>
    layerRanges.foldl
      (fun acc lr => combineTriple (acc, lr.reverse.getD i fillTriple))
      fillTriple)).reverse

/-! ## Box layer slicing (`gui/layers/_box_layer.py`) -/

/-- Embeds `Box._slice_boxes`.  `coords` is the `(N, 2, D)` vertex array
as a list of vertex pairs; `indices` is the index tuple.  The numpy mask
`np.all(np.equal(coords[:, :, 2:], broadcast(indices[2:])), axis=(1, 2))`
holds for a box when both its vertices agree with `indices` beyond the
first two coordinates, and `coords[matches, :, :2]` projects the matching
boxes onto their first two coordinates. -/
def sliceBoxes (coords : List (List Int × List Int)) (indices : List Int) :
    List (List Int × List Int) × List Bool :=
  if 0 < coords.length then
    let mask := coords.map (fun b =>
      (b.1.drop 2 == indices.drop 2) && (b.2.drop 2 == indices.drop 2))
    let inSliceBoxes := ((coords.zip mask).filter (fun p => p.2)).map
      (fun p => (p.1.1.take 2, p.1.2.take 2))
    (inSliceBoxes, mask)
  else ([], [])

/-- The claim's phrasing of the match condition: both vertices agree with
the given indices in every coordinate beyond the first two. -/
def AgreesBeyondTwo (b : List Int × List Int) (indices : List Int) : Prop :=
  ∀ j, j < indices.length → 2 ≤ j →
    b.1.getD j 0 = indices.getD j 0 ∧ b.2.getD j 0 = indices.getD j 0

instance (b : List Int × List Int) (indices : List Int) :
    Decidable (AgreesBeyondTwo b indices) := by
  unfold AgreesBeyondTwo
  exact Nat.decidableBallLT _ _

/-! ## Helper lemmas -/

theorem lookup_isSome_iff_mem {β : Type} (l : List (String × β)) (k : String) :
    (l.lookup k).isSome = true ↔ k ∈ l.map Prod.fst := by
  induction l with
  | nil => simp [List.lookup]
  | cons p rest ih =>
    obtain ⟨a, b⟩ := p
    by_cases h : k = a
    · subst h
      simp [List.lookup]
    · have hba : (k == a) = false := beq_false_of_ne h
      simp [List.lookup, hba, ih, h]

theorem map_fst_map_val {α β γ : Type} (f : α → β → γ) (l : List (α × β)) :
    (l.map (fun p => (p.1, f p.1 p.2))).map Prod.fst = l.map Prod.fst := by
  induction l with
  | nil => rfl
  | cons p rest ih => simp [ih]

theorem mem_timersInsert_self (d : List String) (k : String) :
    k ∈ timersInsert d k := by
  unfold timersInsert
  split
  · assumption
  · simp

theorem mem_timersInsert_of_mem (d : List String) (k a : String) (h : a ∈ d) :
    a ∈ timersInsert d k := by
  unfold timersInsert
  split
  · exact h
  · exact List.mem_append_left _ h

theorem mem_foldl_timersInsert_of_mem (ks : List String) :
    ∀ (d : List String) (a : String), a ∈ d → a ∈ ks.foldl timersInsert d := by
  induction ks with
  | nil => intro d a h; exact h
  | cons k rest ih =>
    intro d a h
    exact ih _ _ (mem_timersInsert_of_mem d k a h)

theorem mem_foldl_timersInsert_self (ks : List String) :
    ∀ (d : List String) (a : String), a ∈ ks → a ∈ ks.foldl timersInsert d := by
  induction ks with
  | nil => intro d a h; cases h
  | cons k rest ih =>
    intro d a h
    rcases List.mem_cons.mp h with h | h
    · subst h
      exact mem_foldl_timersInsert_of_mem rest _ a (mem_timersInsert_self d a)
    · exact ih _ _ h

/-! ## Claim theorems -/

/-- C1: the `ChunkKey` identity is the tuple (layer id, data id, data
level, flattened slice indices), where flattening replaces each slice by
its start, stop and step and keeps non-slice indices unchanged; two keys
compare equal exactly when the hashes of their identity tuples are equal,
so keys built from the same layer, data, level and indices are equal. -/
theorem chunkKey_identity_eq :
    ∀ (h : HashValues → Int) (l1 d1 v1 : Int) (i1 : List PyIndex)
      (l2 d2 v2 : Int) (i2 : List PyIndex),
    (mkChunkKey h l1 d1 v1 i1).layer_key.getHashValues
      = (l1, d1, v1, flattenIndices i1) ∧
    (chunkKeyEq (mkChunkKey h l1 d1 v1 i1) (mkChunkKey h l2 d2 v2 i2) = true ↔
      h (l1, d1, v1, flattenIndices i1) = h (l2, d2, v2, flattenIndices i2)) ∧
    chunkKeyEq (mkChunkKey h l1 d1 v1 i1) (mkChunkKey h l1 d1 v1 i1) = true := by
  intro h l1 d1 v1 i1 l2 d2 v2 i2
  refine ⟨rfl, ?_, ?_⟩
  · simp [chunkKeyEq, mkChunkKey, LayerKey.getHashValues]
  · simp [chunkKeyEq]

/-- C4: `thumbnail_source` returns the chunk named `"thumbnail_source"`
when that name is present in the chunks dict, and otherwise returns the
chunk stored under the name `"image"`. -/
theorem thumbnailSource_fallback :
    ∀ r : ChunkRequest,
    ("thumbnail_source" ∈ r.chunks.map Prod.fst →
      thumbnailSource r = r.chunks.lookup "thumbnail_source") ∧
    ("thumbnail_source" ∉ r.chunks.map Prod.fst →
      thumbnailSource r = r.chunks.lookup "image") := by
  intro r
  constructor
  · intro hmem
    have h : (r.chunks.lookup "thumbnail_source").isSome = true :=
      (lookup_isSome_iff_mem _ _).mpr hmem
    unfold thumbnailSource
    cases hl : r.chunks.lookup "thumbnail_source" with
    | some c => rfl
    | none => rw [hl] at h; simp at h
  · intro hmem
    have h : ¬(r.chunks.lookup "thumbnail_source").isSome = true := fun hs =>
      hmem ((lookup_isSome_iff_mem _ _).mp hs)
    unfold thumbnailSource
    cases hl : r.chunks.lookup "thumbnail_source" with
    | some c => rw [hl] at h; simp at h
    | none => rfl

/-- Witness for C4 at a concrete request with both names present. -/
theorem thumbnailSource_fallback_witness :
    thumbnailSource
      ⟨mkChunkKey (fun _ => 0) 1 2 0 [],
       [("thumbnail_source", ArrayLike.ndarray 5), ("image", ArrayLike.ndarray 7)],
       []⟩
      = List.lookup "thumbnail_source"
          [("thumbnail_source", ArrayLike.ndarray 5), ("image", ArrayLike.ndarray 7)] :=
  (thumbnailSource_fallback
    ⟨mkChunkKey (fun _ => 0) 1 2 0 [],
     [("thumbnail_source", ArrayLike.ndarray 5), ("image", ArrayLike.ndarray 7)],
     []⟩).1 (by decide)

/-- C5: after `load_chunks`, the timers dict contains the aggregate entry
`"ChunkRequest.load_chunks"` plus one entry per chunk name, and every
chunk value has been replaced by `np.asarray` of itself (hence is an
ndarray). -/
theorem loadChunks_timers_chunks :
    ∀ r : ChunkRequest,
    "ChunkRequest.load_chunks" ∈ (loadChunks r).timers ∧
    (∀ name ∈ r.chunks.map Prod.fst, name ∈ (loadChunks r).timers) ∧
    (loadChunks r).chunks = r.chunks.map (fun p => (p.1, asarray p.2)) ∧
    (∀ p ∈ (loadChunks r).chunks, ∃ n, p.2 = ArrayLike.ndarray n) := by
  intro r
  refine ⟨?_, ?_, rfl, ?_⟩
  · exact mem_timersInsert_self _ _
  · intro name hname
    exact mem_timersInsert_of_mem _ _ _
      (mem_foldl_timersInsert_self _ _ _ hname)
  · intro p hp
    simp only [loadChunks, List.mem_map] at hp
    obtain ⟨q, _, hq⟩ := hp
    subst hq
    cases q.2 with
    | ndarray n => exact ⟨n, rfl⟩
    | lazyArr n => exact ⟨n, rfl⟩

/-- Witness for C5 at a concrete two-chunk request. -/
theorem loadChunks_timers_chunks_witness :
    "image" ∈ (loadChunks
      ⟨mkChunkKey (fun _ => 0) 1 2 0 [],
       [("image", ArrayLike.lazyArr 3), ("thumbnail_source", ArrayLike.ndarray 4)],
       []⟩).timers :=
  (loadChunks_timers_chunks
    ⟨mkChunkKey (fun _ => 0) 1 2 0 [],
     [("image", ArrayLike.lazyArr 3), ("thumbnail_source", ArrayLike.ndarray 4)],
     []⟩).2.1 "image" (by decide)

/-- C8: `load_chunks` and `transpose_chunks` preserve the set of chunk
names and leave the request's `key` field unchanged; they only replace the
chunk values. -/
theorem loadChunks_transposeChunks_frame :
    ∀ (tr : ArrayLike → ArrayLike) (r : ChunkRequest),
    (loadChunks r).chunks.map Prod.fst = r.chunks.map Prod.fst ∧
    (loadChunks r).key = r.key ∧
    (loadChunks r).timers.length ≥ r.timers.length ∧
    (transposeChunks tr r).chunks.map Prod.fst = r.chunks.map Prod.fst ∧
    (transposeChunks tr r).key = r.key ∧
    (transposeChunks tr r).timers = r.timers := by
  intro tr r
  refine ⟨?_, rfl, ?_, ?_, rfl, rfl⟩
  · exact map_fst_map_val (fun _ v => asarray v) r.chunks
  · show (timersInsert ((r.chunks.map Prod.fst).foldl timersInsert r.timers)
      "ChunkRequest.load_chunks").length ≥ r.timers.length
    have h1 : ∀ (ks : List String) (d : List String),
        (ks.foldl timersInsert d).length ≥ d.length := by
      intro ks
      induction ks with
      | nil => intro d; exact Nat.le_refl _
      | cons k rest ih =>
        intro d
        refine Nat.le_trans ?_ (ih (timersInsert d k))
        unfold timersInsert
        split
        · exact Nat.le_refl _
        · simp
    refine Nat.le_trans (h1 (r.chunks.map Prod.fst) r.timers) ?_
    unfold timersInsert
    split
    · exact Nat.le_refl _
    · simp
  · exact map_fst_map_val (fun _ v => tr v) r.chunks

theorem ceilDiv_succ (m s : Nat) (hs : 0 < s) :
    ceilDiv (m + 1) s = ceilDiv (m - (s - 1)) s + 1 := by
  unfold ceilDiv
  have h1 : m + 1 + s - 1 = m + s := by omega
  rw [h1, Nat.add_div_right m hs]
  congr 1
  by_cases h : s - 1 ≤ m
  · have h2 : m - (s - 1) + s - 1 = m := by omega
    rw [h2]
  · have h2 : m - (s - 1) = 0 := by omega
    rw [h2, Nat.div_eq_of_lt (by omega), Nat.div_eq_of_lt (by omega)]

theorem everyNthAux_length {α : Type} (s : Nat) (hs : 0 < s) :
    ∀ (xs : List α) (k : Nat),
    (everyNthAux s k xs).length = ceilDiv (xs.length - k) s := by
  intro xs
  induction xs with
  | nil =>
    intro k
    simp only [everyNthAux, List.length_nil, ceilDiv]
    rw [Nat.div_eq_of_lt (by omega)]
  | cons x xs ih =>
    intro k
    cases k with
    | zero =>
      simp only [everyNthAux, List.length_cons, Nat.sub_zero]
      rw [ih (s - 1), ceilDiv_succ xs.length s hs]
    | succ j =>
      simp only [everyNthAux, List.length_cons]
      rw [ih j]
      congr 1
      omega

theorem everyNth_length {α : Type} (s : Nat) (hs : 0 < s) (xs : List α) :
    (everyNth s xs).length = ceilDiv xs.length s := by
  unfold everyNth
  rw [everyNthAux_length s hs xs 0, Nat.sub_zero]

theorem everyNthAux_subset {α : Type} (s : Nat) :
    ∀ (xs : List α) (k : Nat) (a : α), a ∈ everyNthAux s k xs → a ∈ xs := by
  intro xs
  induction xs with
  | nil =>
    intro k a h
    simp [everyNthAux] at h
  | cons x xs ih =>
    intro k a h
    cases k with
    | zero =>
      rw [show everyNthAux s 0 (x :: xs) = x :: everyNthAux s (s - 1) xs from rfl] at h
      rcases List.mem_cons.mp h with h | h
      · exact h ▸ List.mem_cons_self _ _
      · exact List.mem_cons_of_mem _ (ih _ _ h)
    | succ j =>
      exact List.mem_cons_of_mem _ (ih j a h)

theorem everyNth_subset {α : Type} (s : Nat) (xs : List α) (a : α)
    (h : a ∈ everyNth s xs) : a ∈ xs :=
  everyNthAux_subset s xs 0 a h

theorem strideSlice_hasShape :
    ∀ (sh steps : List Nat) (t : Tensor),
    steps.length = sh.length → (∀ s ∈ steps, 0 < s) →
    hasShape sh t = true →
    hasShape (List.zipWith ceilDiv sh steps) (strideSlice steps t) = true := by
  intro sh
  induction sh with
  | nil =>
    intro steps t hlen _ ht
    have hsteps : steps = [] := List.eq_nil_of_length_eq_zero (by simpa using hlen)
    subst hsteps
    simpa [strideSlice] using ht
  | cons n sh ih =>
    intro steps t hlen hpos ht
    cases steps with
    | nil => simp at hlen
    | cons s rest =>
      cases t with
      | scalar v => simp [hasShape] at ht
      | arr es =>
        simp only [hasShape, Bool.and_eq_true, beq_iff_eq, List.all_eq_true] at ht
        obtain ⟨hlen_es, hall⟩ := ht
        have hs : 0 < s := hpos s (List.mem_cons_self _ _)
        simp only [List.zipWith_cons_cons, strideSlice, hasShape,
          Bool.and_eq_true, beq_iff_eq, List.all_eq_true]
        constructor
        · rw [List.length_map, everyNth_length s hs, hlen_es]
        · intro x hx
          rw [List.mem_map] at hx
          obtain ⟨e, he, hex⟩ := hx
          subst hex
          exact ih rest e (by simpa using hlen)
            (fun q hq => hpos q (List.mem_cons_of_mem _ hq))
            (hall e (everyNth_subset s es e he))

theorem ceilDiv_pos (n s : Nat) (hn : 0 < n) (hs : 0 < s) : 0 < ceilDiv n s := by
  unfold ceilDiv
  exact Nat.div_pos (by omega) hs

theorem ceilDiv_ceilDiv_le (n M : Nat) (hn : 0 < n) (hM : 0 < M) :
    ceilDiv n (ceilDiv n M) ≤ M := by
  have key : n ≤ M * ((n + M - 1) / M) := by
    have h1 := Nat.div_add_mod (n + M - 1) M
    have h2 : (n + M - 1) % M < M := Nat.mod_lt _ hM
    omega
  have hd : 0 < (n + M - 1) / M := Nat.div_pos (by omega) hM
  show (n + (n + M - 1) / M - 1) / ((n + M - 1) / M) ≤ M
  rw [Nat.div_le_iff_le_mul_add_pred hd]
  have hc : ((n + M - 1) / M) * M = M * ((n + M - 1) / M) := Nat.mul_comm _ _
  omega

theorem zipWith_map_self (f : Nat → Nat) (g : Nat → Nat → Nat) :
    ∀ l : List Nat, List.zipWith g l (l.map f) = l.map (fun n => g n (f n)) := by
  intro l
  induction l with
  | nil => rfl
  | cons x xs ih => simp [ih]

theorem combineTriple_fill : combineTriple (fillTriple, fillTriple) = fillTriple := rfl

theorem zipLongest_length {α : Type} (fill : α) :
    ∀ (xs ys : List α),
    (zipLongest fill xs ys).length = max xs.length ys.length := by
  intro xs
  induction xs with
  | nil =>
    intro ys
    induction ys with
    | nil => simp [zipLongest]
    | cons y ys ihy => simp [zipLongest, ihy]
  | cons x xs ihx =>
    intro ys
    cases ys with
    | nil =>
      have := ihx []
      simp [zipLongest, this]
    | cons y ys => simp [zipLongest, ihx ys]; omega

theorem zipLongest_getD {α : Type} (fill : α) :
    ∀ (xs ys : List α) (i : Nat),
    (zipLongest fill xs ys).getD i (fill, fill)
      = (xs.getD i fill, ys.getD i fill) := by
  intro xs
  induction xs with
  | nil =>
    intro ys
    induction ys with
    | nil => intro i; simp [zipLongest]
    | cons y ys ihy =>
      intro i
      cases i with
      | zero => simp [zipLongest]
      | succ j => simpa [zipLongest] using ihy j
  | cons x xs ihx =>
    intro ys i
    cases ys with
    | nil =>
      cases i with
      | zero => simp [zipLongest]
      | succ j => simpa [zipLongest] using ihx [] j
    | cons y ys =>
      cases i with
      | zero => simp [zipLongest]
      | succ j => simpa [zipLongest] using ihx ys j

theorem getD_map {α β : Type} (f : α → β) :
    ∀ (l : List α) (i : Nat) (d : α),
    (l.map f).getD i (f d) = f (l.getD i d) := by
  intro l
  induction l with
  | nil => intro i d; rfl
  | cons x rest ih =>
    intro i d
    cases i with
    | zero => rfl
    | succ j => simp only [List.map_cons, List.getD_cons_succ, ih j d]

theorem if_gt_eq_max (m l : Nat) : (if l > m then l else m) = max m l := by
  rw [Nat.max_def]
  split <;> split <;> omega

theorem foldl_dims_eq :
    ∀ (lrs : List (List RangeTriple)) (m : Nat),
    lrs.foldl (fun m lr => if lr.length > m then lr.length else m) m
      = lrs.foldl (fun m lr => max m lr.length) m := by
  intro lrs
  induction lrs with
  | nil => intro m; rfl
  | cons lr rest ih =>
    intro m
    simp only [List.foldl_cons, if_gt_eq_max, ih]

theorem foldl_max_le_init :
    ∀ (lrs : List (List RangeTriple)) (m : Nat),
    m ≤ lrs.foldl (fun acc lr => max acc lr.length) m := by
  intro lrs
  induction lrs with
  | nil => intro m; exact Nat.le_refl m
  | cons lr rest ih =>
    intro m
    exact Nat.le_trans (Nat.le_max_left m lr.length) (ih (max m lr.length))

theorem mem_le_foldl_max :
    ∀ (lrs : List (List RangeTriple)) (m : Nat) (lr : List RangeTriple),
    lr ∈ lrs → lr.length ≤ lrs.foldl (fun acc l => max acc l.length) m := by
  intro lrs
  induction lrs with
  | nil => intro m lr h; cases h
  | cons hd rest ih =>
    intro m lr h
    rcases List.mem_cons.mp h with h | h
    · subst h
      exact Nat.le_trans (Nat.le_max_right m lr.length)
        (foldl_max_le_init rest (max m lr.length))
    · exact ih _ lr h

theorem ranges_foldl_len :
    ∀ (lrs : List (List RangeTriple)) (acc : List RangeTriple),
    (∀ lr ∈ lrs, lr.length ≤ acc.length) →
    (lrs.foldl
        (fun ranges lr => (zipLongest fillTriple ranges lr.reverse).map combineTriple)
        acc).length = acc.length := by
  intro lrs
  induction lrs with
  | nil => intro acc _; rfl
  | cons lr rest ih =>
    intro acc h
    have hstep : ((zipLongest fillTriple acc lr.reverse).map combineTriple).length
        = acc.length := by
      rw [List.length_map, zipLongest_length, List.length_reverse]
      have := h lr (List.mem_cons_self lr rest)
      omega
    rw [List.foldl_cons, ih _ (fun l hl => by rw [hstep]; exact h l (List.mem_cons_of_mem _ hl))]
    exact hstep

theorem ranges_foldl_getD :
    ∀ (lrs : List (List RangeTriple)) (acc : List RangeTriple) (i : Nat),
    (∀ lr ∈ lrs, lr.length ≤ acc.length) →
    (lrs.foldl
        (fun ranges lr => (zipLongest fillTriple ranges lr.reverse).map combineTriple)
        acc).getD i fillTriple
      = lrs.foldl
          (fun t lr => combineTriple (t, lr.reverse.getD i fillTriple))
          (acc.getD i fillTriple) := by
  intro lrs
  induction lrs with
  | nil => intro acc i _; rfl
  | cons lr rest ih =>
    intro acc i h
    have hstep : ((zipLongest fillTriple acc lr.reverse).map combineTriple).getD i fillTriple
        = combineTriple (acc.getD i fillTriple, lr.reverse.getD i fillTriple) := by
      have h1 := getD_map combineTriple (zipLongest fillTriple acc lr.reverse) i
        (fillTriple, fillTriple)
      rw [zipLongest_getD] at h1
      exact h1
    have hlen : ((zipLongest fillTriple acc lr.reverse).map combineTriple).length
        = acc.length := by
      rw [List.length_map, zipLongest_length, List.length_reverse]
      have := h lr (List.mem_cons_self lr rest)
      omega
    rw [List.foldl_cons, List.foldl_cons,
      ih _ i (fun l hl => by rw [hlen]; exact h l (List.mem_cons_of_mem _ hl)),
      hstep]

theorem drop_two_eq_iff (xs ys : List Int) (hlen : xs.length = ys.length) :
    xs.drop 2 = ys.drop 2
      ↔ ∀ j, j < ys.length → 2 ≤ j → xs.getD j 0 = ys.getD j 0 := by
  constructor
  · intro h j hj h2
    have hd : (xs.drop 2)[j - 2]? = (ys.drop 2)[j - 2]? := by rw [h]
    rw [List.getElem?_drop, List.getElem?_drop] at hd
    have hj2 : 2 + (j - 2) = j := by omega
    rw [hj2] at hd
    rw [List.getD_eq_getElem?_getD, List.getD_eq_getElem?_getD, hd]
  · intro h
    apply List.ext_getElem?
    intro k
    rw [List.getElem?_drop, List.getElem?_drop]
    by_cases hk : 2 + k < ys.length
    · have hx : 2 + k < xs.length := by omega
      have hgd := h (2 + k) hk (by omega)
      rw [List.getD_eq_getElem?_getD, List.getD_eq_getElem?_getD,
        List.getElem?_eq_getElem hx, List.getElem?_eq_getElem hk] at hgd
      rw [List.getElem?_eq_getElem hx, List.getElem?_eq_getElem hk]
      simpa using hgd
    · rw [List.getElem?_eq_none (by omega), List.getElem?_eq_none (by omega)]

theorem matchBool_eq_decide (b : List Int × List Int) (indices : List Int)
    (h1 : b.1.length = indices.length) (h2 : b.2.length = indices.length) :
    ((b.1.drop 2 == indices.drop 2) && (b.2.drop 2 == indices.drop 2))
      = decide (AgreesBeyondTwo b indices) := by
  by_cases hA : AgreesBeyondTwo b indices
  · have e1 : b.1.drop 2 = indices.drop 2 :=
      (drop_two_eq_iff _ _ h1).mpr (fun j hj hj2 => (hA j hj hj2).1)
    have e2 : b.2.drop 2 = indices.drop 2 :=
      (drop_two_eq_iff _ _ h2).mpr (fun j hj hj2 => (hA j hj hj2).2)
    simp [e1, e2, hA]
  · have hne : ¬(b.1.drop 2 = indices.drop 2 ∧ b.2.drop 2 = indices.drop 2) := by
      rintro ⟨e1, e2⟩
      exact hA (fun j hj hj2 =>
        ⟨(drop_two_eq_iff _ _ h1).mp e1 j hj hj2,
         (drop_two_eq_iff _ _ h2).mp e2 j hj hj2⟩)
    have hfalse :
        ((b.1.drop 2 == indices.drop 2) && (b.2.drop 2 == indices.drop 2))
          = false := by
      by_contra hb
      rw [Bool.not_eq_false, Bool.and_eq_true, beq_iff_eq, beq_iff_eq] at hb
      exact hne hb
    rw [hfalse, decide_eq_false hA]

theorem zip_map_filter_map {α β : Type} (f : α → Bool) (g : α → β)
    (l : List α) :
    ((l.zip (l.map f)).filter (fun p => p.2)).map (fun p => g p.1)
      = (l.filter f).map g := by
  induction l with
  | nil => rfl
  | cons x rest ih =>
    cases hx : f x <;>
      simp [List.zip_cons_cons, List.filter_cons, hx, ih]

/-- C7: for a `Box` layer with non-empty coords, `_slice_boxes` returns
exactly those boxes both of whose vertices agree with the given indices in
every coordinate beyond the first two, projected onto their first two
coordinates, together with the boolean match mask; with no boxes it
returns a pair of empty lists. -/
theorem sliceBoxes_spec :
    ∀ (coords : List (List Int × List Int)) (indices : List Int),
    (coords = [] → sliceBoxes coords indices = ([], [])) ∧
    ((∀ b ∈ coords, b.1.length = indices.length ∧ b.2.length = indices.length) →
      (sliceBoxes coords indices).2
        = coords.map (fun b => decide (AgreesBeyondTwo b indices)) ∧
      (sliceBoxes coords indices).1
        = (coords.filter (fun b => decide (AgreesBeyondTwo b indices))).map
            (fun b => (b.1.take 2, b.2.take 2))) := by
  intro coords indices
  constructor
  · intro h; subst h; rfl
  · intro hlen
    have hcong : ∀ b ∈ coords,
        ((b.1.drop 2 == indices.drop 2) && (b.2.drop 2 == indices.drop 2))
          = decide (AgreesBeyondTwo b indices) :=
      fun b hb => matchBool_eq_decide b indices (hlen b hb).1 (hlen b hb).2
    by_cases hc : 0 < coords.length
    · simp only [sliceBoxes, if_pos hc]
      refine ⟨List.map_congr_left hcong, ?_⟩
      rw [zip_map_filter_map
        (fun b => (b.1.drop 2 == indices.drop 2) && (b.2.drop 2 == indices.drop 2))
        (fun b => (b.1.take 2, b.2.take 2)) coords]
      rw [List.filter_congr hcong]
    · have hnil : coords = [] := by
        cases coords with
        | nil => rfl
        | cons c cs => simp at hc
      subst hnil
      simp [sliceBoxes]

/-- Witness for C7: two boxes, one matching the indices beyond the first
two coordinates. -/
theorem sliceBoxes_spec_witness :
    (sliceBoxes
      [([0, 1, 5, 6], [2, 3, 5, 6]), ([0, 0, 9, 9], [1, 1, 9, 8])]
      [0, 0, 5, 6]).1
      = (([([0, 1, 5, 6], [2, 3, 5, 6]), ([0, 0, 9, 9], [1, 1, 9, 8])] :
          List (List Int × List Int)).filter
          (fun b => decide (AgreesBeyondTwo b [0, 0, 5, 6]))).map
          (fun b => (b.1.take 2, b.2.take 2)) :=
  ((sliceBoxes_spec
    [([0, 1, 5, 6], [2, 3, 5, 6]), ([0, 0, 9, 9], [1, 1, 9, 8])]
    [0, 0, 5, 6]).2 (by decide)).2

/-- C2 (amended: all dimensions positive): for every non-multiscale image
layer whose dimensions are all positive and every positive
`MAX_TEXTURE_SIZE`, `downsample_texture` returns an array each of whose
dimensions is at most `MAX_TEXTURE_SIZE`, obtained by axis-aligned strided
slicing with stride `ceil(dim / MAX_TEXTURE_SIZE)` along each axis; when
no dimension exceeds `MAX_TEXTURE_SIZE` the input array is returned
unchanged (and the `tile2data` scale is untouched). -/
theorem downsampleTexture_nonMultiscale
    (ndim : Nat) (displayed scale : List Nat) (a : NDArray) (M : Nat)
    (hM : 0 < M) (hpos : ∀ n ∈ a.shape, 0 < n) (hwf : a.wf = true) :
    ∃ r sc, downsampleTexture false ndim displayed scale a M = DsResult.ok r sc ∧
      (∀ n ∈ r.shape, n ≤ M) ∧
      r.wf = true ∧
      (a.shape.any (fun n => M < n) = true →
        r.data = strideSlice (a.shape.map (fun n => ceilDiv n M)) a.data ∧
        r.shape = a.shape.map (fun n => ceilDiv n (ceilDiv n M)) ∧
        sc = updateScale ndim displayed (a.shape.map (fun n => ceilDiv n M))) ∧
      (a.shape.any (fun n => M < n) = false → r = a ∧ sc = scale) := by
  by_cases hbig : a.shape.any (fun n => M < n) = true
  · have hds : (a.shape.map (fun n => ceilDiv n M)).any (fun s => s == 0) = false := by
      rw [List.any_eq_false]
      intro s hs
      rw [List.mem_map] at hs
      obtain ⟨n, hn, rfl⟩ := hs
      simp only [beq_iff_eq]
      exact fun h0 => Nat.lt_irrefl 0 (h0 ▸ ceilDiv_pos n M (hpos n hn) hM)
    have hshape_eq : List.zipWith ceilDiv a.shape (a.shape.map (fun n => ceilDiv n M))
        = a.shape.map (fun n => ceilDiv n (ceilDiv n M)) :=
      zipWith_map_self (fun n => ceilDiv n M) ceilDiv a.shape
    refine ⟨⟨strideSlice (a.shape.map (fun n => ceilDiv n M)) a.data,
      List.zipWith ceilDiv a.shape (a.shape.map (fun n => ceilDiv n M))⟩,
      updateScale ndim displayed (a.shape.map (fun n => ceilDiv n M)),
      ?_, ?_, ?_, ?_, ?_⟩
    · simp [downsampleTexture, hbig, hds]
    · intro n' hn'
      rw [hshape_eq, List.mem_map] at hn'
      obtain ⟨n, hn, rfl⟩ := hn'
      exact ceilDiv_ceilDiv_le n M (hpos n hn) hM
    · show hasShape _ _ = true
      apply strideSlice_hasShape
      · exact (List.length_map _ _).symm ▸ rfl
      · intro s hs
        rw [List.mem_map] at hs
        obtain ⟨n, hn, rfl⟩ := hs
        exact ceilDiv_pos n M (hpos n hn) hM
      · exact hwf
    · intro _
      exact ⟨rfl, hshape_eq, rfl⟩
    · intro hfalse
      rw [hbig] at hfalse
      cases hfalse
  · have hfalse : a.shape.any (fun n => M < n) = false :=
      Bool.not_eq_true _ ▸ (Bool.eq_false_iff.mpr hbig)
    refine ⟨a, scale, ?_, ?_, hwf, ?_, fun _ => ⟨rfl, rfl⟩⟩
    · simp [downsampleTexture, hfalse]
    · intro n hn
      have hle := List.any_eq_false.mp hfalse n hn
      simp only [decide_eq_true_eq] at hle
      omega
    · intro htrue
      rw [htrue] at hfalse
      cases hfalse

/-- Witness for C2 at a one-axis array of length 3 with limit 2: the
result is `[x0, x2]` of shape `[2]`. -/
theorem downsampleTexture_nonMultiscale_witness :
    ∃ r sc, downsampleTexture false 1 [0] [1]
        ⟨Tensor.arr [Tensor.scalar 0, Tensor.scalar 1, Tensor.scalar 2], [3]⟩ 2
        = DsResult.ok r sc ∧
      (∀ n ∈ r.shape, n ≤ 2) ∧
      r.wf = true ∧
      (([3] : List Nat).any (fun n => 2 < n) = true →
        r.data = strideSlice ([3].map (fun n => ceilDiv n 2))
          (Tensor.arr [Tensor.scalar 0, Tensor.scalar 1, Tensor.scalar 2]) ∧
        r.shape = [3].map (fun n => ceilDiv n (ceilDiv n 2)) ∧
        sc = updateScale 1 [0] ([3].map (fun n => ceilDiv n 2))) ∧
      (([3] : List Nat).any (fun n => 2 < n) = false → r = ⟨Tensor.arr
        [Tensor.scalar 0, Tensor.scalar 1, Tensor.scalar 2], [3]⟩ ∧ sc = [1]) :=
  downsampleTexture_nonMultiscale 1 [0] [1]
    ⟨Tensor.arr [Tensor.scalar 0, Tensor.scalar 1, Tensor.scalar 2], [3]⟩ 2
    (by decide) (by decide) (by decide)

/-- Counterexample to C2 as stated: for a well-formed non-multiscale array
of shape `(0, 2)` and `MAX_TEXTURE_SIZE = 1`, the oversized branch is
entered, the stride for the zero-sized axis is `ceil(0 / 1) = 0`, and
numpy's slicing raises `ValueError: slice step cannot be zero` instead of
returning a downsampled array. -/
theorem downsampleTexture_zero_dim_counterexample :
    downsampleTexture false 2 [0, 1] [1, 1] ⟨Tensor.arr [], [0, 2]⟩ 1
        = DsResult.err DsError.zeroSliceStep [0, 2] ∧
      NDArray.wf ⟨Tensor.arr [], [0, 2]⟩ = true := ⟨rfl, rfl⟩

/-- C3 (amended): `downsample_texture` raises its multiscale `ValueError`
exactly when some dimension exceeds `MAX_TEXTURE_SIZE` and the layer is
multiscale, and in that case the raise happens before the `tile2data`
scale is modified, so the layer state is unchanged; a non-multiscale layer
raises no error provided all of its dimensions are positive (with a
zero-sized dimension alongside an oversized one, numpy's zero-step slicing
raises a `ValueError` instead). -/
theorem downsampleTexture_error_iff
    (ms : Bool) (ndim : Nat) (displayed scale : List Nat) (a : NDArray) (M : Nat) :
    ((a.shape.any (fun n => M < n) = true ∧ ms = true) →
      downsampleTexture ms ndim displayed scale a M
        = DsResult.err DsError.multiscaleOversize scale) ∧
    ((a.shape.any (fun n => M < n) = false ∨ ms = false) →
      ∀ sc, downsampleTexture ms ndim displayed scale a M
        ≠ DsResult.err DsError.multiscaleOversize sc) ∧
    (ms = false → 0 < M → (∀ n ∈ a.shape, 0 < n) →
      ∃ r sc, downsampleTexture ms ndim displayed scale a M
        = DsResult.ok r sc) := by
  refine ⟨?_, ?_, ?_⟩
  · rintro ⟨hbig, hms⟩
    subst hms
    simp [downsampleTexture, hbig]
  · intro h sc
    rcases h with h | h
    · simp [downsampleTexture, h]
    · subst h
      by_cases hbig : a.shape.any (fun n => M < n) = true
      · simp only [downsampleTexture, hbig, if_true, Bool.false_eq_true,
          if_false]
        split
        · simp
        · simp
      · have hfalse : a.shape.any (fun n => M < n) = false :=
          Bool.eq_false_iff.mpr hbig
        simp [downsampleTexture, hfalse]
  · intro hms hM hpos
    subst hms
    by_cases hbig : a.shape.any (fun n => M < n) = true
    · have hds : (a.shape.map (fun n => ceilDiv n M)).any (fun s => s == 0)
          = false := by
        rw [List.any_eq_false]
        intro s hs
        rw [List.mem_map] at hs
        obtain ⟨n, hn, rfl⟩ := hs
        simp only [beq_iff_eq]
        exact fun h0 => Nat.lt_irrefl 0 (h0 ▸ ceilDiv_pos n M (hpos n hn) hM)
      exact ⟨⟨strideSlice (a.shape.map (fun n => ceilDiv n M)) a.data,
        List.zipWith ceilDiv a.shape (a.shape.map (fun n => ceilDiv n M))⟩,
        updateScale ndim displayed (a.shape.map (fun n => ceilDiv n M)),
        by simp [downsampleTexture, hbig, hds]⟩
    · have hfalse : a.shape.any (fun n => M < n) = false :=
        Bool.eq_false_iff.mpr hbig
      exact ⟨a, scale, by simp [downsampleTexture, hfalse]⟩

/-- Witness for C3: an oversized multiscale tile errors with the scale
untouched, at a concrete input. -/
theorem downsampleTexture_error_iff_witness :
    downsampleTexture true 1 [0] [1]
        ⟨Tensor.arr [Tensor.scalar 0, Tensor.scalar 1], [2]⟩ 1
      = DsResult.err DsError.multiscaleOversize [1] :=
  (downsampleTexture_error_iff true 1 [0] [1]
    ⟨Tensor.arr [Tensor.scalar 0, Tensor.scalar 1], [2]⟩ 1).1 ⟨by decide, rfl⟩

/-- Counterexample to C3 as stated ("for a non-multiscale layer no error
is ever raised"): a well-formed non-multiscale array of shape `(0, 3)`
with `MAX_TEXTURE_SIZE = 2` raises numpy's zero-step `ValueError`, and it
does so after the `tile2data` scale has already been set to `(0, 2)`. -/
theorem downsampleTexture_nonMultiscale_error_counterexample :
    downsampleTexture false 2 [0, 1] [1, 1] ⟨Tensor.arr [], [0, 3]⟩ 2
        = DsResult.err DsError.zeroSliceStep [0, 2] ∧
      NDArray.wf ⟨Tensor.arr [], [0, 3]⟩ = true := ⟨rfl, rfl⟩

/-- C10: the two viewer implementations compute axis ranges identically,
and the common result is formed right-aligned and element-wise as
(minimum of mins, maximum of maxes, minimum of steps) across layers, with
`(inf, -inf, inf)` for axes no layer covers. -/
theorem calcLayersRanges_equiv :
    ∀ lrs : List (List RangeTriple),
    viewerModelCalcLayersRanges lrs = viewerCalcLayersRanges lrs ∧
    viewerModelCalcLayersRanges lrs = calcLayersRangesSpec lrs := by
  intro lrs
  refine ⟨rfl, ?_⟩
  unfold viewerModelCalcLayersRanges viewerModelCalcLayersNumDims
    calcLayersRangesSpec
  rw [foldl_dims_eq lrs 0]
  apply congrArg List.reverse
  have hbound : ∀ lr ∈ lrs,
      lr.length ≤ (List.replicate
        (lrs.foldl (fun m lr => max m lr.length) 0) fillTriple).length := by
    intro lr hlr
    rw [List.length_replicate]
    exact mem_le_foldl_max lrs 0 lr hlr
  apply List.ext_getElem
  · rw [ranges_foldl_len lrs _ hbound, List.length_replicate, List.length_map,
      List.length_range]
  · intro i h1 h2
    have hlen1 : i < (List.replicate
        (lrs.foldl (fun m lr => max m lr.length) 0) fillTriple).length := by
      rw [ranges_foldl_len lrs _ hbound] at h1
      exact h1
    rw [← List.getD_eq_getElem _ fillTriple h1]
    rw [ranges_foldl_getD lrs _ i hbound]
    have hrep : (List.replicate
        (lrs.foldl (fun m lr => max m lr.length) 0) fillTriple).getD i fillTriple
        = fillTriple := by
      rw [List.getD_eq_getElem _ fillTriple hlen1]
      simp
    rw [hrep]
    simp

/-- C6: for each of the `ViewerModel` properties `status`, `help`,
`title`, `cursor`, `interactive` and `palette`, assigning a value equal to
the current one leaves the model unchanged and emits no event, while
assigning a different value stores it and emits exactly one corresponding
change event; hence every such setter is idempotent. -/
theorem viewer_setters_guarded :
    ∀ (s : ViewerState) (v : String) (b : Bool) (p : List (String × String)),
    (setStatus s s.status = (s, []) ∧
      (v ≠ s.status →
        setStatus s v = ({ s with status := v }, [ViewerEvent.status v]))) ∧
    (setHelp s s.help = (s, []) ∧
      (v ≠ s.help →
        setHelp s v = ({ s with help := v }, [ViewerEvent.help v]))) ∧
    (setTitle s s.title = (s, []) ∧
      (v ≠ s.title →
        setTitle s v = ({ s with title := v }, [ViewerEvent.title v]))) ∧
    (setCursor s s.cursor = (s, []) ∧
      (v ≠ s.cursor →
        setCursor s v = ({ s with cursor := v }, [ViewerEvent.cursor]))) ∧
    (setInteractive s s.interactive = (s, []) ∧
      (b ≠ s.interactive →
        setInteractive s b = ({ s with interactive := b }, [ViewerEvent.interactive]))) ∧
    (setPalette s s.palette = (s, []) ∧
      (p ≠ s.palette →
        setPalette s p = ({ s with palette := p }, [ViewerEvent.palette p]))) := by
  intro s v b p
  refine ⟨⟨?_, ?_⟩, ⟨?_, ?_⟩, ⟨?_, ?_⟩, ⟨?_, ?_⟩, ⟨?_, ?_⟩, ⟨?_, ?_⟩⟩ <;>
    first
    | (intro h;
       simp [setStatus, setHelp, setTitle, setCursor, setInteractive,
         setPalette, h])
    | simp [setStatus, setHelp, setTitle, setCursor, setInteractive, setPalette]

@[simp] theorem setStatus_fst_status (s : ViewerState) (v : String) :
    (setStatus s v).1.status = v := by
  unfold setStatus; split <;> simp_all

@[simp] theorem setStatus_fst_help (s : ViewerState) (v : String) :
    (setStatus s v).1.help = s.help := by
  unfold setStatus; split <;> rfl

@[simp] theorem setStatus_fst_cursor (s : ViewerState) (v : String) :
    (setStatus s v).1.cursor = s.cursor := by
  unfold setStatus; split <;> rfl

@[simp] theorem setStatus_fst_interactive (s : ViewerState) (v : String) :
    (setStatus s v).1.interactive = s.interactive := by
  unfold setStatus; split <;> rfl

@[simp] theorem setStatus_fst_active_layer (s : ViewerState) (v : String) :
    (setStatus s v).1.active_layer = s.active_layer := by
  unfold setStatus; split <;> rfl

@[simp] theorem setHelp_fst_help (s : ViewerState) (v : String) :
    (setHelp s v).1.help = v := by
  unfold setHelp; split <;> simp_all

@[simp] theorem setHelp_fst_status (s : ViewerState) (v : String) :
    (setHelp s v).1.status = s.status := by
  unfold setHelp; split <;> rfl

@[simp] theorem setHelp_fst_cursor (s : ViewerState) (v : String) :
    (setHelp s v).1.cursor = s.cursor := by
  unfold setHelp; split <;> rfl

@[simp] theorem setHelp_fst_interactive (s : ViewerState) (v : String) :
    (setHelp s v).1.interactive = s.interactive := by
  unfold setHelp; split <;> rfl

@[simp] theorem setHelp_fst_active_layer (s : ViewerState) (v : String) :
    (setHelp s v).1.active_layer = s.active_layer := by
  unfold setHelp; split <;> rfl

@[simp] theorem setCursor_fst_cursor (s : ViewerState) (v : String) :
    (setCursor s v).1.cursor = v := by
  unfold setCursor; split <;> simp_all

@[simp] theorem setCursor_fst_status (s : ViewerState) (v : String) :
    (setCursor s v).1.status = s.status := by
  unfold setCursor; split <;> rfl

@[simp] theorem setCursor_fst_help (s : ViewerState) (v : String) :
    (setCursor s v).1.help = s.help := by
  unfold setCursor; split <;> rfl

@[simp] theorem setCursor_fst_interactive (s : ViewerState) (v : String) :
    (setCursor s v).1.interactive = s.interactive := by
  unfold setCursor; split <;> rfl

@[simp] theorem setCursor_fst_active_layer (s : ViewerState) (v : String) :
    (setCursor s v).1.active_layer = s.active_layer := by
  unfold setCursor; split <;> rfl

@[simp] theorem setInteractive_fst_interactive (s : ViewerState) (v : Bool) :
    (setInteractive s v).1.interactive = v := by
  unfold setInteractive; split <;> simp_all

@[simp] theorem setInteractive_fst_status (s : ViewerState) (v : Bool) :
    (setInteractive s v).1.status = s.status := by
  unfold setInteractive; split <;> rfl

@[simp] theorem setInteractive_fst_help (s : ViewerState) (v : Bool) :
    (setInteractive s v).1.help = s.help := by
  unfold setInteractive; split <;> rfl

@[simp] theorem setInteractive_fst_cursor (s : ViewerState) (v : Bool) :
    (setInteractive s v).1.cursor = s.cursor := by
  unfold setInteractive; split <;> rfl

@[simp] theorem setInteractive_fst_active_layer (s : ViewerState) (v : Bool) :
    (setInteractive s v).1.active_layer = s.active_layer := by
  unfold setInteractive; split <;> rfl

@[simp] theorem setActiveLayer_fst_active_layer (s : ViewerState)
    (v : Option VLayer) : (setActiveLayer s v).1.active_layer = v := by
  unfold setActiveLayer; split <;> simp_all

@[simp] theorem setActiveLayer_fst_status (s : ViewerState) (v : Option VLayer) :
    (setActiveLayer s v).1.status = s.status := by
  unfold setActiveLayer; split <;> rfl

@[simp] theorem setActiveLayer_fst_help (s : ViewerState) (v : Option VLayer) :
    (setActiveLayer s v).1.help = s.help := by
  unfold setActiveLayer; split <;> rfl

@[simp] theorem setActiveLayer_fst_cursor (s : ViewerState) (v : Option VLayer) :
    (setActiveLayer s v).1.cursor = s.cursor := by
  unfold setActiveLayer; split <;> rfl

@[simp] theorem setActiveLayer_fst_interactive (s : ViewerState)
    (v : Option VLayer) : (setActiveLayer s v).1.interactive = s.interactive := by
  unfold setActiveLayer; split <;> rfl

theorem findActive_some (a : VLayer) (ls : List VLayer) :
    findActive (some a) ls
      = if ls.any (fun l => l.selected) then none else some a := by
  induction ls with
  | nil => simp [findActive]
  | cons l rest ih =>
    by_cases h : l.selected
    · simp [findActive, h]
    · simp [findActive, h, ih]

theorem findActive_none_single (ls : List VLayer) (l : VLayer)
    (h : ls.filter (fun x => x.selected) = [l]) :
    findActive none ls = some l := by
  induction ls with
  | nil => simp at h
  | cons x rest ih =>
    by_cases hx : x.selected
    · rw [List.filter_cons_of_pos (by simpa using hx)] at h
      obtain ⟨hxl, hrest⟩ := List.cons_eq_cons.mp h
      have hany : rest.any (fun y => y.selected) = false := by
        rw [List.any_eq_false]
        intro y hy
        have := (List.filter_eq_nil_iff.mp hrest) y hy
        simpa using this
      subst hxl
      simp [findActive, hx, findActive_some, hany]
    · rw [List.filter_cons_of_neg (by simpa using hx)] at h
      simp [findActive, hx, ih h]

theorem findActive_none_not_single (ls : List VLayer)
    (h : (ls.filter (fun x => x.selected)).length ≠ 1) :
    findActive none ls = none := by
  induction ls with
  | nil => rfl
  | cons x rest ih =>
    by_cases hx : x.selected
    · rw [List.filter_cons_of_pos (by simpa using hx)] at h
      have hne : rest.filter (fun y => y.selected) ≠ [] := by
        intro hnil
        rw [hnil] at h
        simp at h
      have hany : rest.any (fun y => y.selected) = true := by
        rw [List.any_eq_true]
        rcases List.exists_mem_of_ne_nil _ hne with ⟨y, hy⟩
        have hy' := List.mem_filter.mp hy
        exact ⟨y, hy'.1, by simpa using hy'.2⟩
      simp [findActive, hx, findActive_some, hany]
    · rw [List.filter_cons_of_neg (by simpa using hx)] at h
      simp [findActive, hx, ih h]

/-- C9: after `_update_active_layer` runs, `active_layer` equals the
unique selected layer when exactly one layer is selected, and is `None`
when zero or more than one layer is selected; in the `None` case `status`
is `'Ready'`, `help` is `''`, `cursor` is `'standard'` and `interactive`
is `True`. -/
theorem updateActiveLayer_post :
    ∀ (layers : List VLayer) (s : ViewerState),
    (∀ l, layers.filter (fun x => x.selected) = [l] →
      (updateActiveLayer layers s).1.active_layer = some l) ∧
    ((layers.filter (fun x => x.selected)).length ≠ 1 →
      (updateActiveLayer layers s).1.active_layer = none ∧
      (updateActiveLayer layers s).1.status = "Ready" ∧
      (updateActiveLayer layers s).1.help = "" ∧
      (updateActiveLayer layers s).1.cursor = "standard" ∧
      (updateActiveLayer layers s).1.interactive = true) := by
  intro layers s
  constructor
  · intro l hl
    unfold updateActiveLayer
    rw [findActive_none_single layers l hl]
    simp
  · intro hne
    unfold updateActiveLayer
    rw [findActive_none_not_single layers hne]
    simp

/-- Witness for C9 with one selected layer among two, and with none. -/
theorem updateActiveLayer_post_witness :
    (updateActiveLayer
      [⟨1, false, "a", "b", "c", false⟩, ⟨2, true, "s", "h", "cur", false⟩]
      ⟨"Ready", "", "napari", "standard", true, [], none⟩).1.active_layer
      = some ⟨2, true, "s", "h", "cur", false⟩ :=
  (updateActiveLayer_post
    [⟨1, false, "a", "b", "c", false⟩, ⟨2, true, "s", "h", "cur", false⟩]
    ⟨"Ready", "", "napari", "standard", true, [], none⟩).1
    ⟨2, true, "s", "h", "cur", false⟩ (by decide)

/-- Witness for C6 at a concrete state: a differing status is stored with
one event, an equal title is a no-op. -/
theorem viewer_setters_guarded_witness :
    setStatus ⟨"Ready", "", "napari", "standard", true, [], none⟩ "busy"
      = (⟨"busy", "", "napari", "standard", true, [], none⟩,
         [ViewerEvent.status "busy"]) :=
  (viewer_setters_guarded ⟨"Ready", "", "napari", "standard", true, [], none⟩
    "busy" false []).1.2 (by decide)

end Napari
